import Mathlib

/-!
# nccl_example.cpp : a shallow embedding of `main`

`main` is a straight-line program (all loop bounds are literals) that talks to
three collaborators: the CUDA device runtime, the NCCL collective runtime and a
stopwatch (`timer`).  We embed it as the list of statements obtained by
unrolling its loops, and give the statements a small-step semantics
parameterised by

* an oracle, which answers every runtime call with a result code
  (`0` is `cudaSuccess` / `ncclSuccess`), and
* the stopwatch reading `E` returned by `t.elapsed()`.

Floating point values are replaced by exact rationals.
-/

namespace NcclExample

/-! ## Data model -/

/-- The two parallel pointer arrays of `main`: `sendbuff[i]` and `recvbuff[i]`. -/
inductive Buf where
  | send (i : Nat)
  | recv (i : Nat)
  deriving DecidableEq, Repr

/-- The element types of `nccl.h` that matter here, with their sizes. -/
inductive ncclDataType_t where
  | ncclInt8
  | ncclFloat16
  | ncclFloat32
  | ncclFloat64
  deriving DecidableEq, Repr

/-- The reduction operators of `nccl.h`. -/
inductive ncclRedOp_t where
  | ncclSum
  | ncclProd
  | ncclMax
  | ncclMin
  deriving DecidableEq, Repr

/-- Size in bytes of one element of a collective data type. -/
def ncclDataType_t.bytes : ncclDataType_t → Nat
  | .ncclInt8 => 1
  | .ncclFloat16 => 2
  | .ncclFloat32 => 4
  | .ncclFloat64 => 8

/-- A call into the device runtime (`cuda*`) or the collective runtime (`nccl*`),
with the arguments `main` passes.  Streams and communicators are named by
their index in `s[]` and `comms[]`. -/
inductive Call where
  | cudaSetDevice (device : Nat)
  | cudaMalloc (slot : Buf) (bytes : Nat)
  | cudaMemset (ptr : Buf) (value : Nat) (bytes : Nat)
  | cudaStreamCreate (slot : Nat)
  | ncclCommInitAll (ndev : Nat) (devlist : List Nat)
  | ncclGroupStart
  | ncclAllReduce (sendbuff recvbuff : Buf) (count : Nat)
      (datatype : ncclDataType_t) (op : ncclRedOp_t) (comm : Nat) (stream : Nat)
  | ncclGroupEnd
  | cudaStreamSynchronize (stream : Nat)
  | cudaFree (ptr : Buf)
  | ncclCommDestroy (comm : Nat)
  deriving DecidableEq, Repr

/-- Something `main` does to a collaborator, tagged with its source line. -/
inductive Op where
  | call (line : Nat) (c : Call)
  | timerStart (line : Nat)
  | timerElapsed (line : Nat)
  deriving DecidableEq, Repr

/-- An operation together with the result code it returned
(`0` for the stopwatch, which cannot fail). -/
structure Event where
  op : Op
  res : Nat
  deriving DecidableEq, Repr

/-- A line written to standard output by one of the three `printf`s. -/
inductive Line where
  | cudaFailed (line : Nat) (err : Nat)
  | ncclFailed (line : Nat) (res : Nat)
  | success (latency bandwidth : ℚ)
  deriving DecidableEq

/-- One statement of the unrolled `main`. -/
inductive Stmt where
  | CUDACHECK (line : Nat) (cmd : Call)
  | NCCLCHECK (line : Nat) (cmd : Call)
  | bare (line : Nat) (cmd : Call)
  | timerCtor (line : Nat)
  | readElapsed (line : Nat)
  | printSuccess (line : Nat)
  | ret (code : Nat)
  deriving DecidableEq, Repr

/-- The process state: the calls made so far, standard output, the exit code
once the process has terminated, and the local `double latency`. -/
structure Proc where
  trace : List Event
  out : List Line
  exit : Option Nat
  latency : ℚ

/-- The answer of the runtimes: given the history and the call, a result code. -/
abbrev Oracle := List Event → Call → Nat

/-! ## Constants of `main` -/

def EXIT_FAILURE : Nat := 1

/-- The literal of line 37. -/
def nDev : Nat := 4

/-- The literal of line 38, `size_t size = 16 * 1024 * 1024`. -/
def size : Nat := 16 * 1024 * 1024

/-- The initialiser of line 39. -/
def devs : List Nat := [0, 1, 2, 3]

/-- The value of `sizeof(half)`. -/
def sizeofHalf : Nat := 2

/-- The `size_t` product `size * sizeof(half)`. -/
def bufBytes : Nat := (size * sizeofHalf) % 2 ^ 64

/-- The first value printed on line 109: `latency / 10`. -/
def reportedLatency (latency : ℚ) : ℚ := latency / 10

/-- The second value printed on line 109:
`double(size) * sizeof(half) /1.0E9/latency * 10`. -/
def reportedBandwidth (latency : ℚ) : ℚ :=
  (size : ℚ) * (sizeofHalf : ℚ) / 1000000000 / latency * 10

/-! ## The program -/

/-- A counted loop `for (int i = 0; i < n; ++i) body`, unrolled. -/
def forLoop (n : Nat) (body : Nat → List Stmt) : List Stmt :=
  (List.range n).flatMap body

/-- Lines 46-54. -/
def setupPhase : List Stmt :=
  forLoop nDev fun i =>
    [ .CUDACHECK 48 (.cudaSetDevice i),
      .CUDACHECK 49 (.cudaMalloc (.send i) bufBytes),
      .CUDACHECK 50 (.cudaMalloc (.recv i) bufBytes),
      .CUDACHECK 51 (.cudaMemset (.send i) 1 bufBytes),
      .CUDACHECK 52 (.cudaMemset (.recv i) 0 bufBytes),
      .CUDACHECK 53 (.cudaStreamCreate i) ]

/-- Line 57. -/
def initPhase : List Stmt :=
  [ .NCCLCHECK 57 (.ncclCommInitAll nDev devs) ]

/-- The argument list of the `ncclAllReduce` call of lines 67 and 84. -/
def allReduceCall (i : Nat) : Call :=
  .ncclAllReduce (.send i) (.recv i) size .ncclFloat16 .ncclSum i i

/-- One grouped batch, lines 65-69 (`l = 65`) and 82-86 (`l = 82`). -/
def batch (l : Nat) : List Stmt :=
  [ .NCCLCHECK l .ncclGroupStart ] ++
  (forLoop nDev fun i => [ .NCCLCHECK (l + 2) (allReduceCall i) ]) ++
  [ .NCCLCHECK (l + 4) .ncclGroupEnd ]

/-- Lines 63-70. -/
def warmUpPhase : List Stmt :=
  forLoop 5 fun _ => batch 65

/-- The synchronisation loops, lines 72-76 (`l = 74`) and 89-93 (`l = 91`). -/
def syncPhase (l : Nat) : List Stmt :=
  forLoop nDev fun i =>
    [ .CUDACHECK l (.cudaSetDevice i),
      .CUDACHECK (l + 1) (.cudaStreamSynchronize i) ]

/-- Lines 80-87. -/
def measuredPhase : List Stmt :=
  forLoop 10 fun _ => batch 82

/-- Lines 98-103. -/
def freePhase : List Stmt :=
  forLoop nDev fun i =>
    [ .CUDACHECK 100 (.cudaSetDevice i),
      .CUDACHECK 101 (.cudaFree (.send i)),
      .CUDACHECK 102 (.cudaFree (.recv i)) ]

/-- Lines 106-107: the result of `ncclCommDestroy` is discarded. -/
def destroyPhase : List Stmt :=
  forLoop nDev fun i => [ .bare 107 (.ncclCommDestroy i) ]

/-- Everything up to, not including, `timer t;` on line 79. -/
def beforeTimer : List Stmt :=
  setupPhase ++ initPhase ++ warmUpPhase ++ syncPhase 74

/-- Lines 80-93, between `timer t;` and `t.elapsed()`. -/
def timedWindow : List Stmt :=
  measuredPhase ++ syncPhase 91

/-- Lines 97-110. -/
def teardown : List Stmt :=
  freePhase ++ destroyPhase ++ [ .printSuccess 109, .ret 0 ]

/-- The body of `main`, lines 32-111. -/
def main : List Stmt :=
  beforeTimer ++ [ .timerCtor 79 ] ++ timedWindow ++ [ .readElapsed 94 ] ++ teardown

/-! ## Semantics -/

/-- The start state of the process. -/
def Proc.init : Proc :=
  { trace := [], out := [], exit := none, latency := 0 }

/-- The operations issued so far. -/
def Proc.issued (p : Proc) : List Op := p.trace.map Event.op

/-- Make a runtime call: ask the oracle and record the event. -/
def doCall (o : Oracle) (line : Nat) (cmd : Call) (p : Proc) : Nat × Proc :=
  let r := o p.trace cmd
  (r, { p with trace := p.trace ++ [⟨.call line cmd, r⟩] })

/-- Execute one statement.  A terminated process does nothing. -/
def step (o : Oracle) (E : ℚ) (s : Stmt) (p : Proc) : Proc :=
  match p.exit with
  | some _ => p
  | none =>
    match s with
    | .CUDACHECK line cmd =>
        let (err, q) := doCall o line cmd p
        if err ≠ 0 then
          { q with out := q.out ++ [.cudaFailed line err], exit := some EXIT_FAILURE }
        else q
    | .NCCLCHECK line cmd =>
        let (res, q) := doCall o line cmd p
        if res ≠ 0 then
          { q with out := q.out ++ [.ncclFailed line res], exit := some EXIT_FAILURE }
        else q
    | .bare line cmd => (doCall o line cmd p).2
    | .timerCtor line => { p with trace := p.trace ++ [⟨.timerStart line, 0⟩] }
    | .readElapsed line =>
        { p with trace := p.trace ++ [⟨.timerElapsed line, 0⟩], latency := E }
    | .printSuccess _ =>
        { p with out := p.out ++
            [.success (reportedLatency p.latency) (reportedBandwidth p.latency)] }
    | .ret code => { p with exit := some code }

/-- Execute a list of statements in order. -/
def exec (o : Oracle) (E : ℚ) (l : List Stmt) (p : Proc) : Proc :=
  l.foldl (fun q s => step o E s q) p

/-- A run of `main` against oracle `o` with stopwatch reading `E`. -/
def run (o : Oracle) (E : ℚ) : Proc :=
  exec o E main Proc.init

/-- The oracle under which every call succeeds. -/
def okOracle : Oracle := fun _ _ => 0

/-! ## Reading a program as a sequence of operations -/

/-- The operation a statement issues, if any. -/
def Stmt.op? : Stmt → Option Op
  | .CUDACHECK line cmd => some (.call line cmd)
  | .NCCLCHECK line cmd => some (.call line cmd)
  | .bare line cmd => some (.call line cmd)
  | .timerCtor line => some (.timerStart line)
  | .readElapsed line => some (.timerElapsed line)
  | .printSuccess _ => none
  | .ret _ => none

/-- The statement is a runtime call wrapped in `CUDACHECK` or `NCCLCHECK`. -/
def Stmt.isCheck : Stmt → Bool
  | .CUDACHECK _ _ => true
  | .NCCLCHECK _ _ => true
  | _ => false

/-- The statement is a runtime call, wrapped or not. -/
def Stmt.isCall : Stmt → Bool
  | .CUDACHECK _ _ => true
  | .NCCLCHECK _ _ => true
  | .bare _ _ => true
  | _ => false

/-- The operations a list of statements issues when nothing stops it. -/
def opsOf (l : List Stmt) : List Op := l.filterMap Stmt.op?

/-- The event of an operation that succeeded. -/
def okEv (op : Op) : Event := ⟨op, 0⟩

/-- The source line of an operation. -/
def Op.line : Op → Nat
  | .call line _ => line
  | .timerStart line => line
  | .timerElapsed line => line

/-- The runtime call of an operation; `none` for the stopwatch. -/
def Op.call? : Op → Option Call
  | .call _ c => some c
  | _ => none

/-! ## The sequences the specification describes -/

/-- One grouped batch as the specification describes it: begin-group, one
all-reduce per device in increasing order, end-group.  `l` is the line of the
begin-group call. -/
def specBatch (l : Nat) : List Op :=
  [ .call l .ncclGroupStart,
    .call (l + 2) (.ncclAllReduce (.send 0) (.recv 0) (16 * 1024 * 1024) .ncclFloat16 .ncclSum 0 0),
    .call (l + 2) (.ncclAllReduce (.send 1) (.recv 1) (16 * 1024 * 1024) .ncclFloat16 .ncclSum 1 1),
    .call (l + 2) (.ncclAllReduce (.send 2) (.recv 2) (16 * 1024 * 1024) .ncclFloat16 .ncclSum 2 2),
    .call (l + 2) (.ncclAllReduce (.send 3) (.recv 3) (16 * 1024 * 1024) .ncclFloat16 .ncclSum 3 3),
    .call (l + 4) .ncclGroupEnd ]

/-- One (select device i, synchronize queue i) pair for every device 0..3. -/
def specSyncAll (l : Nat) : List Op :=
  [0, 1, 2, 3].flatMap fun i =>
    [ .call l (.cudaSetDevice i), .call (l + 1) (.cudaStreamSynchronize i) ]

/-- The per-device setup followed by the group initialisation. -/
def specSetup : List Op :=
  ([0, 1, 2, 3].flatMap fun i =>
    [ .call 48 (.cudaSetDevice i),
      .call 49 (.cudaMalloc (.send i) (16 * 1024 * 1024 * 2)),
      .call 50 (.cudaMalloc (.recv i) (16 * 1024 * 1024 * 2)),
      .call 51 (.cudaMemset (.send i) 1 (16 * 1024 * 1024 * 2)),
      .call 52 (.cudaMemset (.recv i) 0 (16 * 1024 * 1024 * 2)),
      .call 53 (.cudaStreamCreate i) ]) ++
  [ .call 57 (.ncclCommInitAll 4 [0, 1, 2, 3]) ]

/-- What the specification says precedes the stopwatch start: setup and group
initialisation, exactly 5 warm-up batches, then a synchronize of all queues. -/
def specBeforeStart : List Op :=
  specSetup ++ (List.replicate 5 (specBatch 65)).flatten ++ specSyncAll 74

/-- What the specification says lies between the stopwatch start and the
reading of the elapsed time: exactly 10 batches, then a synchronize of all
queues. -/
def specTimedWindow : List Op :=
  (List.replicate 10 (specBatch 82)).flatten ++ specSyncAll 91

/-- The operation is a queue synchronize. -/
def Op.isSync : Op → Bool
  | .call _ (.cudaStreamSynchronize _) => true
  | _ => false

/-- The operations of `main` in front of the unchecked teardown loop. -/
def checkedOps : List Op :=
  opsOf beforeTimer ++ .timerStart 79 :: (opsOf timedWindow ++
    .timerElapsed 94 :: opsOf freePhase)

/-- The oracle under which everything succeeds except `ncclCommDestroy(comms[0])`. -/
def destroyFails : Oracle := fun _ c => if c = .ncclCommDestroy 0 then 1 else 0

/-! ## Group brackets -/

/-- One step of the bracket scan.  `some b` means no violation so far, with
`b` telling whether a bracket is open, counted from the issue of a begin-group
to the issue of the next end-group; `none` means a violation: a nested
begin-group, an end-group without a bracket, or a queue synchronize inside a
bracket. -/
def bracketStep (st : Option Bool) (op : Op) : Option Bool :=
  match st, op with
  | none, _ => none
  | some isOpen, .call _ .ncclGroupStart => if isOpen then none else some true
  | some isOpen, .call _ .ncclGroupEnd => if isOpen then some false else none
  | some isOpen, .call _ (.cudaStreamSynchronize _) => if isOpen then none else some false
  | some isOpen, _ => some isOpen

/-- The bracket scan of a sequence of operations, starting with no bracket open. -/
def bracketScan (ops : List Op) : Option Bool :=
  ops.foldl bracketStep (some false)

/-- The group-bracket invariant holds along the whole sequence. -/
def bracketsWellFormed (ops : List Op) : Bool :=
  (bracketScan ops).isSome

/-! ## Closed batches -/

/-- One step of the batch scan: the closed batches so far and the content of
the bracket that is open, if one is. -/
def batchStep (st : List (List Op) × Option (List Op)) (op : Op) :
    List (List Op) × Option (List Op) :=
  match op, st with
  | .call _ .ncclGroupStart, (done, _) => (done, some [])
  | .call _ .ncclGroupEnd, (done, some cur) => (done ++ [cur], none)
  | .call _ .ncclGroupEnd, (done, none) => (done, none)
  | other, (done, some cur) => (done, some (cur ++ [other]))
  | _, (done, none) => (done, none)

/-- The contents of the closed brackets of a sequence of operations: for each
end-group, what was issued since the begin-group that opened it. -/
def closedBatches (ops : List Op) : List (List Op) :=
  (ops.foldl batchStep ([], none)).1

/-- The 4 all-reduce calls the specification puts in every batch. -/
def specBatchCalls : List Call :=
  [ .ncclAllReduce (.send 0) (.recv 0) (16 * 1024 * 1024) .ncclFloat16 .ncclSum 0 0,
    .ncclAllReduce (.send 1) (.recv 1) (16 * 1024 * 1024) .ncclFloat16 .ncclSum 1 1,
    .ncclAllReduce (.send 2) (.recv 2) (16 * 1024 * 1024) .ncclFloat16 .ncclSum 2 2,
    .ncclAllReduce (.send 3) (.recv 3) (16 * 1024 * 1024) .ncclFloat16 .ncclSum 3 3 ]

/-- The byte counts of the allocations of buffer `b` in a sequence of operations. -/
def allocatedBytes (b : Buf) (ops : List Op) : List Nat :=
  ops.filterMap fun op =>
    match op with
    | .call _ (.cudaMalloc slot bytes) => if slot = b then some bytes else none
    | _ => none

/-- The property of C9 for one sequence of operations: every closed batch is
the 4 calls of `specBatchCalls`, and when there is one, each of the 8 buffers
has been allocated once, with `count * sizeof(half)` bytes. -/
def batchesAsSpecified (ops : List Op) : Prop :=
  ∀ b ∈ closedBatches ops,
    b.map Op.call? = specBatchCalls.map some ∧
    ∀ i < 4,
      allocatedBytes (.send i) ops = [16 * 1024 * 1024 * ncclDataType_t.ncclFloat16.bytes] ∧
      allocatedBytes (.recv i) ops = [16 * 1024 * 1024 * ncclDataType_t.ncclFloat16.bytes]

instance (ops : List Op) : Decidable (batchesAsSpecified ops) := by
  unfold batchesAsSpecified; infer_instance

/-! ## Buffer lifecycle -/

/-- For every allocation of buffer `b` in a sequence of operations: the device
selected when it is made and its byte count.  `dev` is the device selected at
the start of the sequence. -/
def allocationsOf (b : Buf) (dev : Option Nat) : List Op → List (Option Nat × Nat)
  | [] => []
  | .call _ (.cudaSetDevice i) :: rest => allocationsOf b (some i) rest
  | .call _ (.cudaMalloc slot bytes) :: rest =>
      if slot = b then (dev, bytes) :: allocationsOf b dev rest
      else allocationsOf b dev rest
  | _ :: rest => allocationsOf b dev rest

/-- For every release of buffer `b` in a sequence of operations: the device
selected when it is made. -/
def releasesOf (b : Buf) (dev : Option Nat) : List Op → List (Option Nat)
  | [] => []
  | .call _ (.cudaSetDevice i) :: rest => releasesOf b (some i) rest
  | .call _ (.cudaFree ptr) :: rest =>
      if ptr = b then dev :: releasesOf b dev rest else releasesOf b dev rest
  | _ :: rest => releasesOf b dev rest

/-- The buffers a fill or collective call reads or writes. -/
def Call.uses : Call → List Buf
  | .cudaMemset ptr _ _ => [ptr]
  | .ncclAllReduce sendbuff recvbuff _ _ _ _ _ => [sendbuff, recvbuff]
  | _ => []

/-- One step of the lifetime scan.  The state is the list of buffers that are
allocated and not yet released; `none` means that a call used a buffer
outside its lifetime. -/
def lifetimeStep (st : Option (List Buf)) (op : Op) : Option (List Buf) :=
  match st, op with
  | none, _ => none
  | some live, .call _ (.cudaMalloc slot _) => some (slot :: live)
  | some live, .call _ (.cudaFree ptr) => some (live.filter fun b => b ≠ ptr)
  | some live, .call _ c => if c.uses.all fun b => live.contains b then some live else none
  | some live, _ => some live

/-- No fill or collective call uses a buffer before its allocation or after
its release. -/
def usesWithinLifetime (ops : List Op) : Bool :=
  (ops.foldl lifetimeStep (some [])).isSome

/-! ## What the batches compute -/

/-- Device memory: the elements of every buffer, exact values standing in for
half precision. -/
abbrev Mem := Buf → Nat → ℚ

/-- Modelled from the spec: the collective runtime is not part of the
repository; this is element `j` of the element-wise sum of the send buffers of
the all-reduce calls of one group. -/
def groupSum (m : Mem) (calls : List Call) (j : Nat) : ℚ :=
  (calls.map fun c =>
    match c with
    | .ncclAllReduce sendbuff _ _ _ _ _ _ => m sendbuff j
    | _ => 0).sum

/-- Modelled from the spec: the collective runtime is not part of the
repository; a successful grouped batch writes, for each of its sum all-reduce
calls, the element-wise sum of the send buffers (as they are when the batch is
issued) into the first `count` elements of that call's receive buffer, and
changes nothing else. -/
def applyGroup (calls : List Call) (m : Mem) : Mem :=
  calls.foldl (fun acc c =>
    match c with
    | .ncclAllReduce _ recvbuff count _ .ncclSum _ _ =>
        fun b j => if b = recvbuff ∧ j < count then groupSum m calls j else acc b j
    | _ => acc) m

/-- Device memory together with the all-reduce calls queued in the open
bracket, if one is open. -/
structure Device where
  mem : Mem
  pending : Option (List Call)

/-- The effect of one operation on device memory.  Only group brackets and
all-reduce calls are interpreted: this is used on lines 63-93, where nothing
else writes device memory. -/
def replayStep (d : Device) (op : Op) : Device :=
  match op with
  | .call _ .ncclGroupStart => { d with pending := some [] }
  | .call _ .ncclGroupEnd =>
      match d.pending with
      | some calls => { mem := applyGroup calls d.mem, pending := none }
      | none => d
  | .call _ c =>
      match c, d.pending with
      | .ncclAllReduce .., some calls => { d with pending := some (calls ++ [c]) }
      | _, _ => d
  | _ => d

/-- Replay a sequence of operations on a device state. -/
def replayFrom (ops : List Op) (d : Device) : Device :=
  ops.foldl replayStep d

/-- Device memory after a sequence of operations issued with no bracket open. -/
def replay (ops : List Op) (m : Mem) : Mem :=
  (replayFrom ops ⟨m, none⟩).mem

/-- The operation is a fill of device memory (`cudaMemset`). -/
def Op.isFill : Op → Bool
  | .call _ (.cudaMemset _ _ _) => true
  | _ => false

/-- Element `j` of the sum of the 4 send buffers. -/
def sendSum (m : Mem) (j : Nat) : ℚ :=
  m (.send 0) j + m (.send 1) j + m (.send 2) j + m (.send 3) j

/-- Device memory after one batch of `main`. -/
def afterBatch (m : Mem) : Mem :=
  replay (opsOf (batch 65)) m

/-! ## Execution lemmas -/

set_option maxRecDepth 1000000

theorem exec_nil (o : Oracle) (E : ℚ) (p : Proc) : exec o E [] p = p := rfl

theorem exec_cons (o : Oracle) (E : ℚ) (s : Stmt) (l : List Stmt) (p : Proc) :
    exec o E (s :: l) p = exec o E l (step o E s p) := rfl

theorem exec_append (o : Oracle) (E : ℚ) (a b : List Stmt) (p : Proc) :
    exec o E (a ++ b) p = exec o E b (exec o E a p) := by
  simp [exec, List.foldl_append]

theorem step_exited (o : Oracle) (E : ℚ) (s : Stmt) (p : Proc) (c : Nat)
    (h : p.exit = some c) : step o E s p = p := by
  simp [step, h]

theorem exec_exited (o : Oracle) (E : ℚ) (l : List Stmt) (p : Proc) (c : Nat)
    (h : p.exit = some c) : exec o E l p = p := by
  induction l with
  | nil => rfl
  | cons s l ih => rw [exec_cons, step_exited o E s p c h, ih]

/-- One step appends at most the statement's own operation to the trace. -/
theorem step_trace (o : Oracle) (E : ℚ) (s : Stmt) (p : Proc) :
    (∃ c, p.exit = some c) ∨
    (p.exit = none ∧ s.op? = none ∧ (step o E s p).trace = p.trace) ∨
    (∃ op r, p.exit = none ∧ s.op? = some op ∧
      (step o E s p).trace = p.trace ++ [⟨op, r⟩]) := by
  cases hp : p.exit with
  | some c => exact Or.inl ⟨c, rfl⟩
  | none =>
    right
    cases s <;> simp [step, hp, doCall, Stmt.op?]
    all_goals split <;> simp

/-- Running statements only appends to the trace, and what is appended is an
initial segment of the operations of those statements. -/
theorem exec_trace (o : Oracle) (E : ℚ) (l : List Stmt) :
    ∀ p : Proc, ∃ t k, (exec o E l p).trace = p.trace ++ t ∧
      t.map Event.op = (opsOf l).take k := by
  induction l with
  | nil => intro p; exact ⟨[], 0, by simp [exec_nil], by simp⟩
  | cons s l ih =>
    intro p
    rw [exec_cons]
    rcases step_trace o E s p with ⟨c, hc⟩ | ⟨hp, hs, ht⟩ | ⟨op, r, hp, hs, ht⟩
    · rw [step_exited o E s p c hc, exec_exited o E l p c hc]
      exact ⟨[], 0, by simp, by simp⟩
    · obtain ⟨t, k, h1, h2⟩ := ih (step o E s p)
      refine ⟨t, k, by rw [h1, ht], ?_⟩
      simpa [opsOf, List.filterMap_cons, hs] using h2
    · obtain ⟨t, k, h1, h2⟩ := ih (step o E s p)
      refine ⟨⟨op, r⟩ :: t, k + 1, by rw [h1, ht]; simp, ?_⟩
      simp [opsOf, List.filterMap_cons, hs]
      simpa [opsOf] using h2

theorem mem_trace_exec (o : Oracle) (E : ℚ) (l : List Stmt) (p : Proc) (e : Event)
    (h : e ∈ p.trace) : e ∈ (exec o E l p).trace := by
  obtain ⟨t, k, h1, -⟩ := exec_trace o E l p
  rw [h1]; exact List.mem_append_left _ h

/-- The operations issued by any run are an initial segment of `opsOf main`. -/
theorem run_issued (o : Oracle) (E : ℚ) :
    ∃ k, (run o E).issued = (opsOf main).take k := by
  obtain ⟨t, k, h1, h2⟩ := exec_trace o E main Proc.init
  refine ⟨k, ?_⟩
  rw [run, Proc.issued, h1]
  simpa [Proc.init] using h2

/-- A block of checked calls either runs to its end with every call
successful, or stops the process at its first failing call. -/
theorem exec_checked (o : Oracle) (E : ℚ) (l : List Stmt) :
    ∀ p : Proc, (∀ s ∈ l, s.isCheck = true) → p.exit = none →
      ((exec o E l p).exit = none ∧
        (exec o E l p).trace = p.trace ++ (opsOf l).map okEv ∧
        (exec o E l p).out = p.out ∧ (exec o E l p).latency = p.latency) ∨
      ((exec o E l p).exit = some EXIT_FAILURE ∧
        ∃ pre post line c r, r ≠ 0 ∧ opsOf l = pre ++ Op.call line c :: post ∧
          (exec o E l p).trace = p.trace ++ pre.map okEv ++ [⟨.call line c, r⟩] ∧
          ((exec o E l p).out = p.out ++ [.cudaFailed line r] ∨
           (exec o E l p).out = p.out ++ [.ncclFailed line r])) := by
  induction l with
  | nil => intro p _ hp; left; simp [exec_nil, hp, opsOf]
  | cons s l ih =>
    intro p hl hp
    have hs : s.isCheck = true := hl s (List.mem_cons_self _ _)
    have hl2 : ∀ s ∈ l, s.isCheck = true := fun x hx => hl x (List.mem_cons_of_mem _ hx)
    rw [exec_cons]
    cases s with
    | CUDACHECK line cmd =>
      by_cases hr : o p.trace cmd = 0
      · have hstep : step o E (.CUDACHECK line cmd) p =
            { p with trace := p.trace ++ [okEv (.call line cmd)] } := by
          simp [step, hp, doCall, hr, okEv]
        rw [hstep]
        rcases ih { p with trace := p.trace ++ [okEv (.call line cmd)] } hl2 hp with ⟨h1, h2, h3, h4⟩ | ⟨h1, pre, post, ln, c, r, hr2, h2, h3, h4⟩
        · left
          refine ⟨h1, ?_, h3, h4⟩
          rw [h2]; simp [opsOf, Stmt.op?]
        · right
          refine ⟨h1, Op.call line cmd :: pre, post, ln, c, r, hr2, ?_, ?_, h4⟩
          · simp [opsOf, Stmt.op?] at h2 ⊢; exact h2
          · rw [h3]; simp
      · have hstep : step o E (.CUDACHECK line cmd) p =
            { p with trace := p.trace ++ [⟨.call line cmd, o p.trace cmd⟩],
                     out := p.out ++ [.cudaFailed line (o p.trace cmd)],
                     exit := some EXIT_FAILURE } := by
          simp [step, hp, doCall, hr]
        rw [hstep, exec_exited o E l _ EXIT_FAILURE rfl]
        right
        exact ⟨rfl, [], opsOf l, line, cmd, o p.trace cmd, hr, by simp [opsOf, Stmt.op?],
          by simp, Or.inl rfl⟩
    | NCCLCHECK line cmd =>
      by_cases hr : o p.trace cmd = 0
      · have hstep : step o E (.NCCLCHECK line cmd) p =
            { p with trace := p.trace ++ [okEv (.call line cmd)] } := by
          simp [step, hp, doCall, hr, okEv]
        rw [hstep]
        rcases ih { p with trace := p.trace ++ [okEv (.call line cmd)] } hl2 hp with ⟨h1, h2, h3, h4⟩ | ⟨h1, pre, post, ln, c, r, hr2, h2, h3, h4⟩
        · left
          refine ⟨h1, ?_, h3, h4⟩
          rw [h2]; simp [opsOf, Stmt.op?]
        · right
          refine ⟨h1, Op.call line cmd :: pre, post, ln, c, r, hr2, ?_, ?_, h4⟩
          · simp [opsOf, Stmt.op?] at h2 ⊢; exact h2
          · rw [h3]; simp
      · have hstep : step o E (.NCCLCHECK line cmd) p =
            { p with trace := p.trace ++ [⟨.call line cmd, o p.trace cmd⟩],
                     out := p.out ++ [.ncclFailed line (o p.trace cmd)],
                     exit := some EXIT_FAILURE } := by
          simp [step, hp, doCall, hr]
        rw [hstep, exec_exited o E l _ EXIT_FAILURE rfl]
        right
        exact ⟨rfl, [], opsOf l, line, cmd, o p.trace cmd, hr, by simp [opsOf, Stmt.op?],
          by simp, Or.inr rfl⟩
    | _ => simp [Stmt.isCheck] at hs

@[simp] theorem okEv_op (op : Op) : (okEv op).op = op := rfl

@[simp] theorem okEv_res (op : Op) : (okEv op).res = 0 := rfl

@[simp] theorem init_trace : Proc.init.trace = [] := rfl

@[simp] theorem init_out : Proc.init.out = [] := rfl

@[simp] theorem init_exit : Proc.init.exit = none := rfl

theorem step_timerCtor (o : Oracle) (E : ℚ) (l : Nat) (p : Proc) (hp : p.exit = none) :
    step o E (.timerCtor l) p = { p with trace := p.trace ++ [okEv (.timerStart l)] } := by
  simp [step, hp, okEv]

theorem step_readElapsed (o : Oracle) (E : ℚ) (l : Nat) (p : Proc) (hp : p.exit = none) :
    step o E (.readElapsed l) p =
      { p with trace := p.trace ++ [okEv (.timerElapsed l)], latency := E } := by
  simp [step, hp, okEv]

theorem step_printSuccess (o : Oracle) (E : ℚ) (l : Nat) (p : Proc) (hp : p.exit = none) :
    step o E (.printSuccess l) p =
      { p with out := p.out ++
          [.success (reportedLatency p.latency) (reportedBandwidth p.latency)] } := by
  simp [step, hp]

theorem step_ret (o : Oracle) (E : ℚ) (c : Nat) (p : Proc) (hp : p.exit = none) :
    step o E (.ret c) p = { p with exit := some c } := by
  simp [step, hp]

@[simp] theorem map_op_okEv (l : List Op) : (l.map okEv).map Event.op = l := by
  simp [List.map_map, Function.comp_def, okEv]

theorem beforeTimer_checked : ∀ s ∈ beforeTimer, s.isCheck = true := by decide

theorem timedWindow_checked : ∀ s ∈ timedWindow, s.isCheck = true := by decide

theorem opsOf_beforeTimer : opsOf beforeTimer = specBeforeStart := by decide

theorem opsOf_timedWindow : opsOf timedWindow = specTimedWindow := by decide

theorem beforeTimer_calls : ∀ op ∈ opsOf beforeTimer, op.call?.isSome = true := by decide

theorem timedWindow_calls : ∀ op ∈ opsOf timedWindow, op.call?.isSome = true := by decide

theorem afterStart_lines :
    ∀ op ∈ opsOf (timedWindow ++ .readElapsed 94 :: teardown), 79 < op.line := by decide

theorem main_split :
    main = beforeTimer ++ .timerCtor 79 :: (timedWindow ++ .readElapsed 94 :: teardown) := by
  simp [main]

theorem mem_of_mem_take_opsOf {l : List Stmt} {k : Nat} {t : List Event} {e : Event}
    (ht : t.map Event.op = (opsOf l).take k) (he : e ∈ t) : e.op ∈ opsOf l := by
  have : e.op ∈ t.map Event.op := List.mem_map_of_mem _ he
  rw [ht] at this
  exact List.mem_of_mem_take this

/-- Under the all-success oracle a block of runtime calls just extends the trace. -/
theorem exec_ok_calls (E : ℚ) (l : List Stmt) :
    ∀ p : Proc, (∀ s ∈ l, s.isCall = true) → p.exit = none →
      exec okOracle E l p = { p with trace := p.trace ++ (opsOf l).map okEv } := by
  induction l with
  | nil => intro p _ _; simp [exec_nil, opsOf]
  | cons s l ih =>
    intro p hl hp
    have hs : s.isCall = true := hl s (List.mem_cons_self _ _)
    have hl2 : ∀ s ∈ l, s.isCall = true := fun x hx => hl x (List.mem_cons_of_mem _ hx)
    rw [exec_cons]
    cases s with
    | CUDACHECK line cmd =>
      have hstep : step okOracle E (.CUDACHECK line cmd) p =
          { p with trace := p.trace ++ [okEv (.call line cmd)] } := by
        simp [step, hp, doCall, okOracle, okEv]
      rw [hstep, ih { p with trace := p.trace ++ [okEv (.call line cmd)] } hl2 hp]
      simp [opsOf, Stmt.op?]
    | NCCLCHECK line cmd =>
      have hstep : step okOracle E (.NCCLCHECK line cmd) p =
          { p with trace := p.trace ++ [okEv (.call line cmd)] } := by
        simp [step, hp, doCall, okOracle, okEv]
      rw [hstep, ih { p with trace := p.trace ++ [okEv (.call line cmd)] } hl2 hp]
      simp [opsOf, Stmt.op?]
    | bare line cmd =>
      have hstep : step okOracle E (.bare line cmd) p =
          { p with trace := p.trace ++ [okEv (.call line cmd)] } := by
        simp [step, hp, doCall, okOracle, okEv]
      rw [hstep, ih { p with trace := p.trace ++ [okEv (.call line cmd)] } hl2 hp]
      simp [opsOf, Stmt.op?]
    | _ => simp [Stmt.isCall] at hs

theorem beforeTimer_isCall : ∀ s ∈ beforeTimer, s.isCall = true := by decide

theorem timedWindow_isCall : ∀ s ∈ timedWindow, s.isCall = true := by decide

theorem release_isCall : ∀ s ∈ freePhase ++ destroyPhase, s.isCall = true := by decide

theorem main_phases :
    main = beforeTimer ++ .timerCtor 79 :: (timedWindow ++ .readElapsed 94 ::
      ((freePhase ++ destroyPhase) ++ [.printSuccess 109, .ret 0])) := by
  simp [main, teardown]

theorem opsOf_main :
    opsOf main = opsOf beforeTimer ++ .timerStart 79 :: (opsOf timedWindow ++
      .timerElapsed 94 :: opsOf (freePhase ++ destroyPhase)) := by
  rw [main_phases]
  simp [opsOf, List.filterMap_append, Stmt.op?]

/-- The run in which every call succeeds, in closed form. -/
theorem run_ok (E : ℚ) :
    run okOracle E =
      { trace := (opsOf main).map okEv,
        out := [.success (reportedLatency E) (reportedBandwidth E)],
        exit := some 0,
        latency := E } := by
  rw [run, main_phases, exec_append, exec_ok_calls E beforeTimer _ beforeTimer_isCall rfl,
    exec_cons, step_timerCtor _ _ _ _ rfl, exec_append,
    exec_ok_calls E timedWindow _ timedWindow_isCall rfl,
    exec_cons, step_readElapsed _ _ _ _ rfl, exec_append,
    exec_ok_calls E _ _ release_isCall rfl,
    exec_cons, step_printSuccess _ _ _ _ rfl, exec_cons, step_ret _ _ _ _ rfl, exec_nil,
    ← main_phases, opsOf_main]
  simp

/-- A step all of whose events succeeded is the step of the all-success oracle. -/
theorem step_congr_ok (o : Oracle) (E : ℚ) (s : Stmt) (p : Proc)
    (h : ∀ e ∈ (step o E s p).trace, e.res = 0) :
    step o E s p = step okOracle E s p := by
  cases hp : p.exit with
  | some c => rw [step_exited o E s p c hp, step_exited okOracle E s p c hp]
  | none =>
    cases s with
    | CUDACHECK line cmd =>
      have h0 : o p.trace cmd = 0 := by
        by_cases hr : o p.trace cmd = 0
        · exact hr
        · exact h ⟨.call line cmd, o p.trace cmd⟩ (by simp [step, hp, doCall, hr])
      simp [step, hp, doCall, okOracle, h0]
    | NCCLCHECK line cmd =>
      have h0 : o p.trace cmd = 0 := by
        by_cases hr : o p.trace cmd = 0
        · exact hr
        · exact h ⟨.call line cmd, o p.trace cmd⟩ (by simp [step, hp, doCall, hr])
      simp [step, hp, doCall, okOracle, h0]
    | bare line cmd =>
      have h0 : o p.trace cmd = 0 :=
        h ⟨.call line cmd, o p.trace cmd⟩ (by simp [step, hp, doCall])
      simp [step, hp, doCall, okOracle, h0]
    | _ => simp [step, hp]

/-- A run in which every call succeeded is the run of the all-success oracle. -/
theorem exec_congr_ok (o : Oracle) (E : ℚ) (l : List Stmt) :
    ∀ p : Proc, (∀ e ∈ (exec o E l p).trace, e.res = 0) →
      exec o E l p = exec okOracle E l p := by
  induction l with
  | nil => intro p _; rfl
  | cons s l ih =>
    intro p h
    rw [exec_cons] at h
    have hs : step o E s p = step okOracle E s p :=
      step_congr_ok o E s p (fun e he => h e (mem_trace_exec o E l _ e he))
    rw [exec_cons, exec_cons, ← hs]
    exact ih _ h

theorem run_of_success (o : Oracle) (E : ℚ) (h : ∀ e ∈ (run o E).trace, e.res = 0) :
    run o E = run okOracle E :=
  exec_congr_ok o E main Proc.init h

/-- A block of unchecked calls always runs to its end, whatever the calls return. -/
theorem exec_bare (o : Oracle) (E : ℚ) (l : List Stmt) :
    ∀ p : Proc, (∀ s ∈ l, ∃ line cmd, s = .bare line cmd) → p.exit = none →
      (exec o E l p).exit = none ∧ (exec o E l p).out = p.out ∧
      (exec o E l p).latency = p.latency ∧
      ∃ t, (exec o E l p).trace = p.trace ++ t ∧ t.map Event.op = opsOf l := by
  induction l with
  | nil => intro p _ hp; exact ⟨hp, rfl, rfl, [], by simp [exec_nil], by simp [opsOf]⟩
  | cons s l ih =>
    intro p hl hp
    obtain ⟨line, cmd, rfl⟩ := hl s (List.mem_cons_self _ _)
    have hl2 : ∀ s ∈ l, ∃ line cmd, s = .bare line cmd :=
      fun x hx => hl x (List.mem_cons_of_mem _ hx)
    have hstep : step o E (.bare line cmd) p =
        { p with trace := p.trace ++ [⟨.call line cmd, o p.trace cmd⟩] } := by
      simp [step, hp, doCall]
    rw [exec_cons, hstep]
    obtain ⟨h1, h2, h3, t, h4, h5⟩ :=
      ih { p with trace := p.trace ++ [⟨.call line cmd, o p.trace cmd⟩] } hl2 hp
    refine ⟨h1, h2, h3, ⟨.call line cmd, o p.trace cmd⟩ :: t, ?_, ?_⟩
    · rw [h4]; simp
    · simp [opsOf, Stmt.op?]; simpa [opsOf] using h5

theorem freePhase_checked : ∀ s ∈ freePhase, s.isCheck = true := by decide

theorem destroyPhase_bare : ∀ s ∈ destroyPhase, ∃ line cmd, s = .bare line cmd := by
  intro s hs
  have : ∀ s ∈ destroyPhase, s.isCall = true ∧ s.isCheck = false := by decide
  have h := this s hs
  cases s <;> simp_all [Stmt.isCall, Stmt.isCheck]

theorem main_stages :
    main = beforeTimer ++ .timerCtor 79 :: (timedWindow ++ .readElapsed 94 ::
      (freePhase ++ (destroyPhase ++ [.printSuccess 109, .ret 0]))) := by
  simp [main, teardown]

/-- Every run of `main` has one of two shapes: it stops at the first failing
checked call, having printed one diagnostic line, or it runs to the end. -/
theorem run_cases (o : Oracle) (E : ℚ) :
    ((run o E).exit = some EXIT_FAILURE ∧
      ∃ pre post line c r, r ≠ 0 ∧ checkedOps = pre ++ Op.call line c :: post ∧
        (run o E).trace = pre.map okEv ++ [⟨.call line c, r⟩] ∧
        ((run o E).out = [.cudaFailed line r] ∨ (run o E).out = [.ncclFailed line r])) ∨
    ((run o E).exit = some 0 ∧
      (run o E).out = [.success (reportedLatency E) (reportedBandwidth E)] ∧
      ∃ t, (run o E).trace = checkedOps.map okEv ++ t ∧
        t.map Event.op = opsOf destroyPhase) := by
  obtain ⟨q1, hq1⟩ : ∃ q, q = exec o E beforeTimer Proc.init := ⟨_, rfl⟩
  have hrun1 : run o E = exec o E (.timerCtor 79 :: (timedWindow ++ .readElapsed 94 ::
      (freePhase ++ (destroyPhase ++ [.printSuccess 109, .ret 0])))) q1 := by
    rw [run, main_stages, exec_append, hq1]
  rcases exec_checked o E beforeTimer Proc.init beforeTimer_checked rfl with
    ⟨a1, a2, a3, -⟩ | ⟨a1, pre, post, line, c, r, hr, a2, a3, a4⟩
  swap
  · rw [← hq1] at a1 a3 a4
    left
    rw [hrun1, exec_exited o E _ _ _ a1]
    refine ⟨a1, pre, post ++ .timerStart 79 :: (opsOf timedWindow ++
      .timerElapsed 94 :: opsOf freePhase), line, c, r, hr, ?_, ?_, ?_⟩
    · simp [checkedOps, a2]
    · simpa using a3
    · simpa using a4
  rw [← hq1] at a1 a2 a3
  obtain ⟨q2, hq2⟩ : ∃ q, q = exec o E timedWindow (step o E (.timerCtor 79) q1) := ⟨_, rfl⟩
  have hrun2 : run o E = exec o E (.readElapsed 94 ::
      (freePhase ++ (destroyPhase ++ [.printSuccess 109, .ret 0]))) q2 := by
    rw [hrun1, exec_cons, exec_append, hq2]
  rw [step_timerCtor o E 79 q1 a1] at hq2
  rcases exec_checked o E timedWindow { q1 with trace := q1.trace ++ [okEv (.timerStart 79)] }
    timedWindow_checked a1 with
    ⟨b1, b2, b3, -⟩ | ⟨b1, pre, post, line, c, r, hr, b2, b3, b4⟩
  swap
  · rw [← hq2] at b1 b3 b4
    left
    rw [hrun2, exec_exited o E _ _ _ b1]
    refine ⟨b1, opsOf beforeTimer ++ .timerStart 79 :: pre,
      post ++ .timerElapsed 94 :: opsOf freePhase, line, c, r, hr, ?_, ?_, ?_⟩
    · simp [checkedOps, b2]
    · rw [b3]; simp [a2]
    · rw [a3] at b4; simpa using b4
  rw [← hq2] at b1 b2 b3
  obtain ⟨q3, hq3⟩ : ∃ q, q = exec o E freePhase (step o E (.readElapsed 94) q2) := ⟨_, rfl⟩
  have hrun3 : run o E = exec o E (destroyPhase ++ [.printSuccess 109, .ret 0]) q3 := by
    rw [hrun2, exec_cons, exec_append, hq3]
  rw [step_readElapsed o E 94 q2 b1] at hq3
  rcases exec_checked o E freePhase
    { q2 with trace := q2.trace ++ [okEv (.timerElapsed 94)], latency := E }
    freePhase_checked b1 with
    ⟨c1, c2, c3, c4⟩ | ⟨c1, pre, post, line, c, r, hr, c2, c3, c4⟩
  swap
  · rw [← hq3] at c1 c3 c4
    left
    rw [hrun3, exec_exited o E _ _ _ c1]
    refine ⟨c1, opsOf beforeTimer ++ .timerStart 79 :: (opsOf timedWindow ++
      .timerElapsed 94 :: pre), post, line, c, r, hr, ?_, ?_, ?_⟩
    · simp [checkedOps, c2]
    · rw [c3]; simp [b2, a2]
    · simp only [b3, a3] at c4; simpa using c4
  rw [← hq3] at c1 c2 c3 c4
  simp only at c2 c3 c4
  obtain ⟨d1, d2, d3, t, d4, d5⟩ := exec_bare o E destroyPhase q3 destroyPhase_bare c1
  right
  rw [hrun3, exec_append, exec_cons, step_printSuccess o E 109 _ d1, exec_cons, exec_nil,
    step_ret]
  · refine ⟨rfl, ?_, t, ?_, d5⟩
    · simp [d2, d3, c3, c4, b3, a3]
    · simp [d4, c2, b2, a2, checkedOps]
  · exact d1

/-! ## The claims -/

/-- C1: whenever the stopwatch is started, what precedes the start is exactly
the setup, the group initialisation, 5 warm-up batches and a successful
(select, synchronize) pair for each of the 4 devices, every call successful;
everything after the start comes from source lines below line 79, so no
warm-up batch follows it. -/
theorem stopwatch_start_follows_warmup_drain (o : Oracle) (E : ℚ) (ln : Nat)
    (h : Op.timerStart ln ∈ (run o E).issued) :
    ∃ post, (run o E).trace =
        specBeforeStart.map okEv ++ okEv (.timerStart 79) :: post ∧
      ∀ e ∈ post, 79 < e.op.line := by
  have hrun : run o E = exec o E (.timerCtor 79 :: (timedWindow ++ .readElapsed 94 :: teardown))
      (exec o E beforeTimer Proc.init) := by
    rw [run, main_split, exec_append]
  rcases exec_checked o E beforeTimer Proc.init beforeTimer_checked rfl with
    ⟨h1, h2, -, -⟩ | ⟨h1, pre, post, line, c, r, -, h2, h3, -⟩
  · rw [exec_cons] at hrun
    have hs : (step o E (.timerCtor 79) (exec o E beforeTimer Proc.init)).trace =
        specBeforeStart.map okEv ++ [okEv (.timerStart 79)] := by
      rw [step_timerCtor o E 79 _ h1]
      simp [h2, opsOf_beforeTimer]
    obtain ⟨t, k, ht1, ht2⟩ := exec_trace o E (timedWindow ++ .readElapsed 94 :: teardown)
      (step o E (.timerCtor 79) (exec o E beforeTimer Proc.init))
    refine ⟨t, ?_, ?_⟩
    · rw [hrun, ht1, hs]; simp
    · intro e he
      exact afterStart_lines _ (mem_of_mem_take_opsOf ht2 he)
  · exfalso
    rw [hrun, exec_exited o E _ _ _ h1, Proc.issued, h3] at h
    simp at h
    have hc := beforeTimer_calls (.timerStart ln) (by rw [h2]; simp [h])
    simp [Op.call?] at hc

theorem afterElapsed_lines : ∀ op ∈ opsOf teardown, 94 < op.line := by decide

theorem measured_no_sync :
    ∀ op ∈ (List.replicate 10 (specBatch 82)).flatten, op.isSync = false := by decide

theorem issued_run_ok (E : ℚ) : (run okOracle E).issued = opsOf main := by
  rw [run_ok]; exact map_op_okEv _

theorem stopwatch_start_follows_warmup_drain_witness :
    Op.timerStart 79 ∈ (run okOracle 1).issued ∧
    ∃ post, (run okOracle 1).trace =
        specBeforeStart.map okEv ++ okEv (.timerStart 79) :: post ∧
      ∀ e ∈ post, 79 < e.op.line :=
  ⟨by rw [issued_run_ok, opsOf_main]; simp,
   stopwatch_start_follows_warmup_drain okOracle 1 79
     (by rw [issued_run_ok, opsOf_main]; simp)⟩

/-- C2: whenever the elapsed time is read, what lies between the stopwatch
start and the read is exactly 10 grouped batches, with no queue synchronize
among them, followed by a (select, synchronize) pair for each of the 4 devices,
every call successful; everything after the read comes from lines below
line 94. -/
theorem elapsed_read_follows_measured_drain (o : Oracle) (E : ℚ) (ln : Nat)
    (h : Op.timerElapsed ln ∈ (run o E).issued) :
    (∃ post, (run o E).trace =
        specBeforeStart.map okEv ++ okEv (.timerStart 79) ::
          (specTimedWindow.map okEv ++ okEv (.timerElapsed 94) :: post) ∧
      ∀ e ∈ post, 94 < e.op.line) ∧
    specTimedWindow = (List.replicate 10 (specBatch 82)).flatten ++ specSyncAll 91 ∧
    ∀ op ∈ (List.replicate 10 (specBatch 82)).flatten, op.isSync = false := by
  refine ⟨?_, rfl, measured_no_sync⟩
  obtain ⟨q1, hq1⟩ : ∃ q, q = exec o E beforeTimer Proc.init := ⟨_, rfl⟩
  have hrun1 : run o E = exec o E (.timerCtor 79 ::
      (timedWindow ++ .readElapsed 94 :: teardown)) q1 := by
    rw [run, main_split, exec_append, hq1]
  rcases exec_checked o E beforeTimer Proc.init beforeTimer_checked rfl with
    ⟨a1, a2, -, -⟩ | ⟨a1, pre, post, line, c, r, -, a2, a3, -⟩
  swap
  · exfalso
    rw [← hq1] at a1 a3
    rw [hrun1, exec_exited o E _ _ _ a1, Proc.issued, a3] at h
    simp at h
    have hc := beforeTimer_calls (.timerElapsed ln) (by rw [a2]; simp [h])
    simp [Op.call?] at hc
  rw [← hq1] at a1 a2
  obtain ⟨q2, hq2⟩ : ∃ q, q = exec o E timedWindow (step o E (.timerCtor 79) q1) := ⟨_, rfl⟩
  have hrun2 : run o E = exec o E (.readElapsed 94 :: teardown) q2 := by
    rw [hrun1, exec_cons, exec_append, hq2]
  rw [step_timerCtor o E 79 q1 a1] at hq2
  rcases exec_checked o E timedWindow { q1 with trace := q1.trace ++ [okEv (.timerStart 79)] }
    timedWindow_checked a1 with
    ⟨b1, b2, -, -⟩ | ⟨b1, pre, post, line, c, r, -, b2, b3, -⟩
  swap
  · exfalso
    rw [← hq2] at b1 b3
    rw [hrun2, exec_exited o E _ _ _ b1, Proc.issued, b3] at h
    simp [a2] at h
    rcases h with h | h
    · have hc := beforeTimer_calls (.timerElapsed ln) h
      simp [Op.call?] at hc
    · have hc := timedWindow_calls (.timerElapsed ln) (by rw [b2]; simp [h])
      simp [Op.call?] at hc
  rw [← hq2] at b1 b2
  obtain ⟨t, k, ht1, ht2⟩ := exec_trace o E teardown (step o E (.readElapsed 94) q2)
  refine ⟨t, ?_, ?_⟩
  · rw [hrun2, exec_cons, ht1, step_readElapsed o E 94 q2 b1]
    simp [b2, a2, opsOf_beforeTimer, opsOf_timedWindow]
  · intro e he
    exact afterElapsed_lines _ (mem_of_mem_take_opsOf ht2 he)

theorem elapsed_read_follows_measured_drain_witness :
    Op.timerElapsed 94 ∈ (run okOracle 1).issued ∧
    ((∃ post, (run okOracle 1).trace =
        specBeforeStart.map okEv ++ okEv (.timerStart 79) ::
          (specTimedWindow.map okEv ++ okEv (.timerElapsed 94) :: post) ∧
      ∀ e ∈ post, 94 < e.op.line) ∧
    specTimedWindow = (List.replicate 10 (specBatch 82)).flatten ++ specSyncAll 91 ∧
    ∀ op ∈ (List.replicate 10 (specBatch 82)).flatten, op.isSync = false) :=
  ⟨by rw [issued_run_ok, opsOf_main]; simp,
   elapsed_read_follows_measured_drain okOracle 1 94
     (by rw [issued_run_ok, opsOf_main]; simp)⟩

/-- Whatever the oracle, a success line on standard output carries the two
values computed from the stopwatch reading. -/
theorem success_line_values (o : Oracle) (E : ℚ) (lat bw : ℚ)
    (h : Line.success lat bw ∈ (run o E).out) :
    lat = reportedLatency E ∧ bw = reportedBandwidth E := by
  rcases run_cases o E with ⟨-, pre, post, line, c, r, -, -, -, h4 | h4⟩ | ⟨-, h2, -⟩
  · rw [h4] at h; simp at h
  · rw [h4] at h; simp at h
  · rw [h2] at h; simpa using h

/-- C4: with exact rational arithmetic, for a stopwatch reading `E ≠ 0` the
bandwidth on the result line of any run equals
`(16*1024*1024*2)/1e9/E*10`. -/
theorem reported_bandwidth_formula (o : Oracle) (E : ℚ) (hE : E ≠ 0) (lat bw : ℚ)
    (h : Line.success lat bw ∈ (run o E).out) :
    bw = (16 * 1024 * 1024 * 2 : ℚ) / 1000000000 / E * 10 := by
  rw [(success_line_values o E lat bw h).2]
  simp only [reportedBandwidth, size, sizeofHalf]
  push_cast
  field_simp
  ring

theorem out_run_ok (E : ℚ) :
    (run okOracle E).out = [.success (reportedLatency E) (reportedBandwidth E)] := by
  rw [run_ok]

theorem reported_bandwidth_formula_witness :
    (2 : ℚ) ≠ 0 ∧
    Line.success (reportedLatency 2) (reportedBandwidth 2) ∈ (run okOracle 2).out ∧
    reportedBandwidth 2 = (16 * 1024 * 1024 * 2 : ℚ) / 1000000000 / 2 * 10 :=
  ⟨by norm_num, by rw [out_run_ok]; simp,
   reported_bandwidth_formula okOracle 2 (by norm_num) (reportedLatency 2) (reportedBandwidth 2)
     (by rw [out_run_ok]; simp)⟩

/-- C10: with exact rational arithmetic, for a stopwatch reading `E ≠ 0` the
bandwidth on the result line equals the gigabytes of one buffer divided by the
latency printed on the same line, and bandwidth times latency is
`16*1024*1024*2/1e9` whatever `E` is. -/
theorem bandwidth_is_bytes_over_latency (o : Oracle) (E : ℚ) (hE : E ≠ 0) (lat bw : ℚ)
    (h : Line.success lat bw ∈ (run o E).out) :
    lat = E / 10 ∧
    bw = ((16 * 1024 * 1024 * 2 : ℚ) / 1000000000) / lat ∧
    bw * lat = (16 * 1024 * 1024 * 2 : ℚ) / 1000000000 := by
  obtain ⟨h1, h2⟩ := success_line_values o E lat bw h
  subst h1 h2
  refine ⟨rfl, ?_, ?_⟩
  · simp only [reportedBandwidth, reportedLatency, size, sizeofHalf]
    push_cast
    field_simp
    ring
  · simp only [reportedBandwidth, reportedLatency, size, sizeofHalf]
    push_cast
    field_simp
    ring

theorem bandwidth_is_bytes_over_latency_witness :
    (5 : ℚ) ≠ 0 ∧
    Line.success (reportedLatency 5) (reportedBandwidth 5) ∈ (run okOracle 5).out ∧
    (reportedLatency 5 = 5 / 10 ∧
    reportedBandwidth 5 = ((16 * 1024 * 1024 * 2 : ℚ) / 1000000000) / reportedLatency 5 ∧
    reportedBandwidth 5 * reportedLatency 5 = (16 * 1024 * 1024 * 2 : ℚ) / 1000000000) :=
  ⟨by norm_num, by rw [out_run_ok]; simp,
   bandwidth_is_bytes_over_latency okOracle 5 (by norm_num) (reportedLatency 5)
     (reportedBandwidth 5) (by rw [out_run_ok]; simp)⟩

/-- C5: in a run where every runtime call succeeds and the stopwatch reads
`E > 0`, the process exits with code 0 and standard output is exactly one
line, reporting latency `E / 10` and a bandwidth, both positive. -/
theorem successful_run_report (o : Oracle) (E : ℚ)
    (hok : ∀ e ∈ (run o E).trace, e.res = 0) (hE : 0 < E) :
    (run o E).exit = some 0 ∧
    ∃ bw, (run o E).out = [.success (E / 10) bw] ∧ 0 < E / 10 ∧ 0 < bw := by
  rw [run_of_success o E hok, run_ok]
  refine ⟨rfl, reportedBandwidth E, rfl, by positivity, ?_⟩
  simp only [reportedBandwidth, size, sizeofHalf]
  positivity

theorem trace_run_ok (E : ℚ) : ∀ e ∈ (run okOracle E).trace, e.res = 0 := by
  rw [run_ok]
  intro e he
  simp at he
  obtain ⟨op, -, rfl⟩ := he
  rfl

theorem successful_run_report_witness :
    (∀ e ∈ (run okOracle 3).trace, e.res = 0) ∧ (0 : ℚ) < 3 ∧
    ((run okOracle 3).exit = some 0 ∧
    ∃ bw, (run okOracle 3).out = [.success (3 / 10) bw] ∧ (0 : ℚ) < 3 / 10 ∧ 0 < bw) :=
  ⟨trace_run_ok 3, by norm_num, successful_run_report okOracle 3 (trace_run_ok 3) (by norm_num)⟩

theorem take_opsOf_main (k : Nat) :
    (opsOf main).take k = (opsOf main).take (min k 149) := by
  have hlen : (opsOf main).length = 149 := by decide
  rcases Nat.lt_or_ge k 150 with h | h
  · rw [Nat.min_eq_left (by omega)]
  · rw [Nat.min_eq_right (by omega), List.take_of_length_le (by omega),
      List.take_of_length_le (by omega)]

theorem brackets_all_prefixes :
    ∀ k < 150, bracketsWellFormed ((opsOf main).take k) = true := by decide

theorem batches_all_prefixes :
    ∀ k < 150, batchesAsSpecified ((opsOf main).take k) := by decide

/-- C6: in every run of `main`, completed or cut short, a begin-group is
issued only when no bracket is open, an end-group only when one is open, and
no bracket is open at any queue synchronize. -/
theorem group_brackets_well_formed (o : Oracle) (E : ℚ) :
    bracketsWellFormed (run o E).issued = true := by
  obtain ⟨k, hk⟩ := run_issued o E
  rw [hk, take_opsOf_main]
  exact brackets_all_prefixes _ (by omega)

/-- C9: in every run of `main`, every closed batch consists of exactly the 4
all-reduce calls for devices 0..3 in increasing order, each a sum over
`16*1024*1024` half-precision elements with `sendbuff[i]`, `recvbuff[i]`,
`comms[i]` and `s[i]`, these buffers having been allocated with `count * 2`
bytes; a run in which every call succeeds closes 15 batches. -/
theorem closed_batches_as_specified (o : Oracle) (E : ℚ) :
    (∀ b ∈ closedBatches (run o E).issued,
      b.map Op.call? = specBatchCalls.map some ∧
      ∀ i < 4,
        allocatedBytes (.send i) (run o E).issued =
          [16 * 1024 * 1024 * ncclDataType_t.ncclFloat16.bytes] ∧
        allocatedBytes (.recv i) (run o E).issued =
          [16 * 1024 * 1024 * ncclDataType_t.ncclFloat16.bytes]) ∧
    ((∀ e ∈ (run o E).trace, e.res = 0) → (closedBatches (run o E).issued).length = 15) := by
  constructor
  · have h : batchesAsSpecified (run o E).issued := by
      obtain ⟨k, hk⟩ := run_issued o E
      rw [hk, take_opsOf_main]
      exact batches_all_prefixes _ (by omega)
    exact h
  · intro h
    rw [run_of_success o E h, issued_run_ok]
    decide

/-- C7: in a run of `main` where every runtime call succeeds, each of the 8
device buffers is allocated exactly once, with `16*1024*1024*2` bytes and
with its device selected, is released exactly once with that same device
selected, and is used by fills and collectives only in between. -/
theorem buffer_lifecycle (o : Oracle) (E : ℚ) (hok : ∀ e ∈ (run o E).trace, e.res = 0) :
    (∀ i < 4,
      allocationsOf (.send i) none (run o E).issued = [(some i, 16 * 1024 * 1024 * 2)] ∧
      allocationsOf (.recv i) none (run o E).issued = [(some i, 16 * 1024 * 1024 * 2)] ∧
      releasesOf (.send i) none (run o E).issued = [some i] ∧
      releasesOf (.recv i) none (run o E).issued = [some i]) ∧
    usesWithinLifetime (run o E).issued = true := by
  rw [run_of_success o E hok, issued_run_ok]
  decide

theorem buffer_lifecycle_witness :
    (∀ e ∈ (run okOracle 1).trace, e.res = 0) ∧
    ((∀ i < 4,
      allocationsOf (.send i) none (run okOracle 1).issued = [(some i, 16 * 1024 * 1024 * 2)] ∧
      allocationsOf (.recv i) none (run okOracle 1).issued = [(some i, 16 * 1024 * 1024 * 2)] ∧
      releasesOf (.send i) none (run okOracle 1).issued = [some i] ∧
      releasesOf (.recv i) none (run okOracle 1).issued = [some i]) ∧
    usesWithinLifetime (run okOracle 1).issued = true) :=
  ⟨trace_run_ok 1, buffer_lifecycle okOracle 1 (trace_run_ok 1)⟩

/-- C3, evaluated where it fails: when `ncclCommDestroy(comms[0])` returns an
error and every other call succeeds, the failed call is followed by three more
runtime calls, no diagnostic is printed, the result line is printed and the
exit code is 0. -/
theorem failed_destroy_goes_unnoticed :
    (run destroyFails 1).exit = some 0 ∧
    (run destroyFails 1).out = [.success (reportedLatency 1) (reportedBandwidth 1)] ∧
    (run destroyFails 1).trace.drop 145 =
      [ ⟨.call 107 (.ncclCommDestroy 0), 1⟩, ⟨.call 107 (.ncclCommDestroy 1), 0⟩,
        ⟨.call 107 (.ncclCommDestroy 2), 0⟩, ⟨.call 107 (.ncclCommDestroy 3), 0⟩ ] := by
  have hexit : (run destroyFails 1).exit = some 0 := by decide
  refine ⟨hexit, ?_, by decide⟩
  rcases run_cases destroyFails 1 with ⟨h1, -⟩ | ⟨-, h2, -⟩
  · rw [hexit] at h1; simp [EXIT_FAILURE] at h1
  · exact h2

/-- Every failing call that is wrapped in `CUDACHECK` or `NCCLCHECK` is the
last call of the run: one diagnostic line is printed, the exit code is
`EXIT_FAILURE`, and nothing else is issued. -/
theorem checked_failure_is_last (o : Oracle) (E : ℚ) (h : (run o E).exit ≠ some 0) :
    (run o E).exit = some EXIT_FAILURE ∧
    ∃ (pre : List Op) (line : Nat) (c : Call) (r : Nat), r ≠ 0 ∧
      (run o E).trace = pre.map okEv ++ [⟨.call line c, r⟩] ∧
      ((run o E).out = [.cudaFailed line r] ∨ (run o E).out = [.ncclFailed line r]) := by
  rcases run_cases o E with ⟨h1, pre, post, line, c, r, hr, -, h3, h4⟩ | ⟨h1, -⟩
  · exact ⟨h1, pre, line, c, r, hr, h3, h4⟩
  · exact absurd h1 h

theorem replayFrom_append (a b : List Op) (d : Device) :
    replayFrom (a ++ b) d = replayFrom b (replayFrom a d) := by
  simp [replayFrom, List.foldl_append]

theorem replayFrom_batch (l : Nat) (m : Mem) :
    replayFrom (opsOf (batch l)) ⟨m, none⟩ = ⟨afterBatch m, none⟩ := rfl

theorem replayFrom_sync (l : Nat) (d : Device) :
    replayFrom (opsOf (syncPhase l)) d = d := rfl

theorem afterBatch_apply (m : Mem) (b : Buf) (j : Nat) :
    afterBatch m b j =
      if (b = .recv 0 ∨ b = .recv 1 ∨ b = .recv 2 ∨ b = .recv 3) ∧ j < 16 * 1024 * 1024
      then sendSum m j else m b j := by
  have h : afterBatch m = applyGroup
      [allReduceCall 0, allReduceCall 1, allReduceCall 2, allReduceCall 3] m := rfl
  rw [h]
  simp only [applyGroup, allReduceCall, List.foldl_cons, List.foldl_nil, groupSum, List.map_cons,
    List.map_nil, List.sum_cons, List.sum_nil, size, sendSum]
  by_cases hj : j < 16 * 1024 * 1024
  · by_cases h3 : b = .recv 3
    · simp [h3, hj, add_assoc]
    · by_cases h2 : b = .recv 2
      · simp [h2, hj, add_assoc]
      · by_cases h1 : b = .recv 1
        · simp [h1, hj, add_assoc]
        · by_cases h0 : b = .recv 0
          · simp [h0, hj, add_assoc]
          · simp [h0, h1, h2, h3]
  · simp [hj]

theorem afterBatch_idem (m : Mem) : afterBatch (afterBatch m) = afterBatch m := by
  funext b j
  rw [afterBatch_apply (afterBatch m), afterBatch_apply m]
  have hs : sendSum (afterBatch m) j = sendSum m j := by
    simp [sendSum, afterBatch_apply]
  rw [hs]
  split <;> rfl

theorem afterBatch_iterate (m : Mem) (k : Nat) :
    afterBatch^[k + 1] m = afterBatch m := by
  induction k with
  | zero => rfl
  | succ k ih => rw [Function.iterate_succ_apply', ih, afterBatch_idem]

theorem opsOf_append (a b : List Stmt) : opsOf (a ++ b) = opsOf a ++ opsOf b := by
  simp [opsOf, List.filterMap_append]

theorem forLoop_succ (k : Nat) (body : Nat → List Stmt) :
    forLoop (k + 1) body = forLoop k body ++ body k := by
  simp [forLoop, List.range_succ, List.flatMap_append]

theorem replayFrom_batches (l : Nat) (m : Mem) (k : Nat) :
    replayFrom (opsOf (forLoop k fun _ => batch l)) ⟨m, none⟩ = ⟨afterBatch^[k] m, none⟩ := by
  induction k with
  | zero => rfl
  | succ k ih =>
    rw [forLoop_succ, opsOf_append, replayFrom_append, ih, replayFrom_batch,
      Function.iterate_succ_apply']

theorem replay_batches (l : Nat) (m : Mem) (k : Nat) :
    replay (opsOf (forLoop (k + 1) fun _ => batch l)) m = afterBatch m := by
  rw [replay, replayFrom_batches, afterBatch_iterate]

/-- C8: with the collective runtime's contract for a successful batch, and the
buffers `main` passes, any number `k ≥ 1` of batches leaves device memory as a
single batch does: each receive buffer holds the element-wise sum of the 4
send buffers and nothing else has changed.  So it is after the 5 warm-up and
10 measured batches, and after the measured phase run twice; the 4 receive
buffers are equal to each other; and no fill is issued on lines 63-93. -/
theorem repeated_batches_idempotent (m : Mem) :
    (∀ k l, 1 ≤ k → replay (opsOf (forLoop k fun _ => batch l)) m = afterBatch m) ∧
    replay (opsOf (warmUpPhase ++ syncPhase 74 ++ [.timerCtor 79] ++ timedWindow)) m =
      afterBatch m ∧
    replay (opsOf (timedWindow ++ timedWindow)) m = afterBatch m ∧
    (∀ b j, afterBatch m b j =
      if (b = .recv 0 ∨ b = .recv 1 ∨ b = .recv 2 ∨ b = .recv 3) ∧ j < 16 * 1024 * 1024
      then m (.send 0) j + m (.send 1) j + m (.send 2) j + m (.send 3) j else m b j) ∧
    (∀ i < 4, ∀ i' < 4, ∀ j < 16 * 1024 * 1024,
      afterBatch m (.recv i) j = afterBatch m (.recv i') j) ∧
    (∀ op ∈ opsOf (warmUpPhase ++ syncPhase 74 ++ [.timerCtor 79] ++ timedWindow),
      op.isFill = false) := by
  refine ⟨?_, ?_, ?_, ?_, ?_, by decide⟩
  · intro k l hk
    obtain ⟨n, rfl⟩ : ∃ n, k = n + 1 := ⟨k - 1, by omega⟩
    exact replay_batches l m n
  · simp only [replay, opsOf_append, replayFrom_append, warmUpPhase, timedWindow, measuredPhase,
      replayFrom_batches, replayFrom_sync]
    have h1 : replayFrom (opsOf [Stmt.timerCtor 79]) ⟨afterBatch^[5] m, none⟩ =
        ⟨afterBatch^[5] m, none⟩ := rfl
    rw [h1, replayFrom_batches, afterBatch_iterate m 4, afterBatch_iterate (afterBatch m) 9,
      afterBatch_idem]
  · simp only [replay, opsOf_append, replayFrom_append, timedWindow, measuredPhase,
      replayFrom_batches, replayFrom_sync]
    rw [afterBatch_iterate m 9, afterBatch_iterate (afterBatch m) 9, afterBatch_idem]
  · intro b j
    rw [afterBatch_apply]; rfl
  · intro i hi i' hi' j hj
    have hb : ∀ n, n < 4 → (Buf.recv n = .recv 0 ∨ Buf.recv n = .recv 1 ∨
        Buf.recv n = .recv 2 ∨ Buf.recv n = .recv 3) := by
      intro n hn
      have : n = 0 ∨ n = 1 ∨ n = 2 ∨ n = 3 := by omega
      rcases this with h | h | h | h <;> simp [h]
    rw [afterBatch_apply, afterBatch_apply, if_pos ⟨hb i hi, hj⟩, if_pos ⟨hb i' hi', hj⟩]

theorem closed_batches_as_specified_witness :
    (closedBatches (run okOracle 1).issued).length = 15 :=
  (closed_batches_as_specified okOracle 1).2 (trace_run_ok 1)

theorem repeated_batches_idempotent_witness :
    replay (opsOf (forLoop 15 fun _ => batch 65)) (fun _ _ => 1) = afterBatch (fun _ _ => 1) ∧
    afterBatch (fun _ _ => 1) (.recv 2) 7 = 4 :=
  ⟨(repeated_batches_idempotent (fun _ _ => 1)).1 15 65 (by decide),
   by rw [(repeated_batches_idempotent (fun _ _ => 1)).2.2.2.1 (.recv 2) 7]; norm_num⟩

end NcclExample
